import Mathlib

/-!
Verification of the parser-plan synthesis core of the nom-derive crate.

The embedding follows `src/lib.rs` and `src/enums.rs` closely.  The derive
macro consumes a `syn::DeriveInput` and emits Rust code; here the emitted
code is represented by its semantic content (a `Plan`), and the decode-time
behaviour of the emitted code is given by explicit evaluation functions
(`fieldless_parse`, `plan_dispatch`) that mirror the token templates in the
two `quote!` blocks.

`structs.rs` and `parsertree.rs` are referenced by the two files but are not
part of the sources; the definitions that stand in for them are marked
`Modelled from the spec:` in their doc comments.
-/

namespace NomDerive

/-- Literal values occurring in attributes (`syn::Lit`).  Only string
literals are understood by the resolvers; every other literal kind is
collapsed into representative constructors. -/
inductive Lit where
  | str (s : String)
  | intLit (n : Int)
  | other
deriving DecidableEq, Repr

/-- Nested element of a `syn::Meta::List` (`syn::NestedMeta`).  The source
only ever inspects a nested meta for being a `Meta::Word`; the non-word
meta cases are collapsed into `metaOther`. -/
inductive NestedMeta where
  | lit (l : Lit)
  | metaWord (ident : String)
  | metaOther
deriving DecidableEq, Repr

/-- A parsed attribute (`syn::Meta`): `#[ident = lit]`, `#[ident(nested,…)]`
or `#[ident]`.  Attributes whose `parse_meta()` fails are skipped by every
loop in the source, so the attribute lists of the embedding hold the
successfully parsed metas only. -/
inductive Meta where
  | nameValue (ident : String) (lit : Lit)
  | metaList (ident : String) (nested : List NestedMeta)
  | word (ident : String)
deriving DecidableEq, Repr

/-- Declared type of a field, as the spec's closed type descriptor
enumeration (§3): fixed-width integer (width in bytes), `Option<…>`,
`Vec<…>`, or a reference to another named type. -/
inductive TypeDesc where
  | primitive (width : Nat) (signed : Bool)
  | optional (inner : TypeDesc)
  | sequence (inner : TypeDesc)
  | named (tyid : String)
deriving DecidableEq, Repr

/-- A struct or variant field (`syn::Field`): identifier (ignored for
positional fields), attached attributes and declared type. -/
structure Field where
  ident : String
  attrs : List Meta
  ty : TypeDesc
deriving DecidableEq, Repr

/-- The fields of a struct or enum variant (`syn::Fields`). -/
inductive Fields where
  | named (fs : List Field)
  | unnamed (fs : List Field)
  | unit
deriving DecidableEq, Repr

/-- An enum variant (`syn::Variant`): identifier, attributes, fields, and
the optional explicit discriminant (`= n`). -/
structure Variant where
  ident : String
  attrs : List Meta
  fields : Fields
  discriminant : Option Int
deriving DecidableEq, Repr

/-- The shape of the derive input (`syn::Data`). -/
inductive Data where
  | dataStruct (fields : Fields)
  | dataEnum (variants : List Variant)
  | dataUnion
deriving DecidableEq, Repr

/-- The input to the derive macro (`syn::DeriveInput`): type name, outer
attributes and shape.  Generics carry no plan-relevant information and are
omitted. -/
structure DeriveInput where
  ident : String
  attrs : List Meta
  data : Data
deriving DecidableEq, Repr

/-- Configuration-time failures of the synthesis.  The source signals all
of them by panicking; the embedding returns them as values.
* `missingSelector v` — `parse_variant`'s `expect` ("The 'Selector'
  attribute must be used … (variant …)"), carrying the variant name;
* `missingUnionSelector` — "Nom-derive: enums must specify the 'selector'
  attribute";
* `missingRepresentation` — "Nom-derive: fieldless enums must have a
  'repr' attribute";
* `panicked msg` — any other panic site, carrying its message. -/
inductive ConfigError where
  | missingSelector (variant : String)
  | missingUnionSelector
  | missingRepresentation
  | panicked (msg : String)
deriving DecidableEq, Repr

/-- Decode-time failure encoded into a synthesized plan.  The only one the
enum dispatcher produces is the `nom::ErrorKind::Switch` error of the
appended default arm, i.e. an unmatched selector. -/
inductive DecodeError where
  | unmatchedSelector
deriving DecidableEq, Repr

/-- `get_selector` from `enums.rs`: scan the attribute list for the first
`Selector` attribute and return its string payload.  `#[Selector = "…"]`
and `#[Selector("…")]` are accepted; a `Selector` name-value with a
non-string literal and a non-string first element of a `Selector` list
panic; an empty `Selector(…)` list falls through to the next attribute. -/
def get_selector : List Meta → Except ConfigError (Option String)
  | [] => .ok none
  | .nameValue i l :: rest =>
      if i = "Selector" then
        match l with
        | .str s => .ok (some s)
        | _ => .error (.panicked "unsupported namevalue type")
      else get_selector rest
  | .metaList i nested :: rest =>
      if i = "Selector" then
        match nested with
        | [] => get_selector rest
        | .lit (.str s) :: _ => .ok (some s)
        | .lit _ :: _ => .error (.panicked "unsupported literal type")
        | _ :: _ => .error (.panicked "unsupported meta type")
      else get_selector rest
  | .word _ :: rest => get_selector rest

/-- `get_repr` from `enums.rs`: scan the attribute list for the first
`#[repr(word)]` attribute and return the word.  A non-word first element
of a `repr(…)` list panics; an empty list falls through. -/
def get_repr : List Meta → Except ConfigError (Option String)
  | [] => .ok none
  | .nameValue _ _ :: rest => get_repr rest
  | .metaList i nested :: rest =>
      if i = "repr" then
        match nested with
        | [] => get_repr rest
        | .metaWord w :: _ => .ok (some w)
        | .metaOther :: _ => .error (.panicked "unsupported nested type for repr")
        | .lit _ :: _ => .error (.panicked "unsupported meta type for repr")
      else get_repr rest
  | .word _ :: rest => get_repr rest

/-- Whether a `Fields` value is `syn::Fields::Unit`. -/
def Fields.isUnit : Fields → Bool
  | .unit => true
  | _ => false

/-- `is_input_fieldless_enum` from `enums.rs`: the input is an enum all of
whose variants are unit variants (fold over the variants, exactly as in
the source). -/
def is_input_fieldless_enum (ast : DeriveInput) : Bool :=
  match ast.data with
  | .dataEnum vs =>
      vs.foldl (fun acc v => if v.fields.isUnit then acc else false) true
  | _ => false

/-- Modelled from the spec: `parsertree.rs` is not among the sources.  A
`ParserTree` is one field's decode step; `enums.rs` only constructs
`ParserTree::Raw`, and the remaining constructors follow the spec's Step
taxonomy (§4.2): optional wrapper, unbounded repetition, and deferral to a
named type's own `parse`. -/
inductive ParserTree where
  | raw (s : String)
  | opt (inner : ParserTree)
  | many0 (inner : ParserTree)
  | call (tyid : String)
deriving DecidableEq, Repr

/-- Modelled from the spec: the Directive Resolver of `structs.rs` is not
among the sources.  Resolves the `Parse` directive of a field's attribute
list the same way `get_selector` resolves `Selector`: first occurrence
wins. -/
def get_parse : List Meta → Option String
  | [] => none
  | .nameValue i (.str s) :: rest =>
      if i = "Parse" then some s else get_parse rest
  | .metaList i (.lit (.str s) :: _) :: rest =>
      if i = "Parse" then some s else get_parse rest
  | _ :: rest => get_parse rest

/-- Modelled from the spec: the Type Inferencer of `structs.rs` is not
among the sources.  §4.2: integer types map to big-endian primitives of
the declared width and signedness, `Option` to an optional wrapper, `Vec`
to unbounded repetition, any other named type to a call of its own
`parse`. -/
def infer : TypeDesc → ParserTree
  | .primitive w signed =>
      .raw ("be_" ++ (if signed then "i" else "u") ++ toString (8 * w))
  | .optional t => .opt (infer t)
  | .sequence t => .many0 (infer t)
  | .named tyid => .call tyid

/-- Modelled from the spec: the Field Plan Builder of `structs.rs` is not
among the sources.  §4.3 precedence: an explicit `Parse` directive becomes
the step verbatim, otherwise the step is inferred from the declared
type. -/
def field_step (f : Field) : ParserTree :=
  match get_parse f.attrs with
  | some e => .raw e
  | none => infer f.ty

/-- `StructParserTree` from `structs.rs` (declaration visible through its
uses in `enums.rs` and `lib.rs`): the ordered field steps of one record,
plus whether the record is positional ("unnamed"). -/
structure StructParserTree where
  parsers : List (String × ParserTree)
  unnamed : Bool
deriving DecidableEq, Repr

/-- Modelled from the spec: `parse_fields` of `structs.rs` is not among
the sources.  §4.4: the Record Plan Builder runs the Field Plan Builder
over each field in declaration order.  Positional fields are bound as
`_0`, `_1`, …; a unit field list yields no steps. -/
def parse_fields : Fields → StructParserTree
  | .named fs => ⟨fs.map (fun f => (f.ident, field_step f)), false⟩
  | .unnamed fs =>
      ⟨fs.enum.map (fun p => ("_" ++ toString p.1, field_step p.2)), true⟩
  | .unit => ⟨[], false⟩

/-- Modelled from the spec: `parse_struct` of `structs.rs` is not among
the sources; it is `parse_fields` applied to the struct's field list. -/
def parse_struct (fields : Fields) : StructParserTree :=
  parse_fields fields

/-- `VariantParserTree` from `enums.rs`: one parsed variant — its name,
its selector string, and the plan of its fields. -/
structure VariantParserTree where
  ident : String
  selector : String
  struct_def : StructParserTree
deriving DecidableEq, Repr

/-- `parse_variant` from `enums.rs`: resolve the variant's `Selector`
attribute (its absence is the `expect` panic naming the variant) and parse
its fields. -/
def parse_variant (v : Variant) : Except ConfigError VariantParserTree :=
  match get_selector v.attrs with
  | .error e => .error e
  | .ok none => .error (.missingSelector v.ident)
  | .ok (some s) => .ok ⟨v.ident, s, parse_fields v.fields⟩

/-- The `variants_defs` collection of `impl_nom_enums`:
`data_enum.variants.iter().map(parse_variant).collect()`, with the panic
of the first failing variant propagated. -/
def map_variants : List Variant → Except ConfigError (List VariantParserTree)
  | [] => .ok []
  | v :: rest =>
      match parse_variant v with
      | .error e => .error e
      | .ok d =>
          match map_variants rest with
          | .error e => .error e
          | .ok ds => .ok (d :: ds)

/-- One dispatch arm of a synthesized enum `parse`: the selector match
pattern (the literal token text, `"_"` for the wildcard), the variant it
constructs and the field plan of its `do_parse!` body. -/
structure UnionArm where
  pattern : String
  variantName : String
  body : StructParserTree
deriving DecidableEq, Repr

/-- The semantic content of the code emitted by `impl_nom`:
* `recordPlan` — the `do_parse!` body emitted for a struct;
* `selectorPlan` — the `match selector { … }` emitted for a selector
  enum: selector type, dispatch arms in emitted order, and whether the
  default `_ => Err(ErrorKind::Switch)` arm was appended;
* `fieldlessPlan` — the `map_opt!(be_<repr>, …)` parser emitted for a
  fieldless enum: the repr and, per variant, its name paired with the
  value of `Name::Variant as repr`, i.e. the variant's Rust enumerator
  value (explicit discriminant, or previous + 1, starting at 0). -/
inductive Plan where
  | recordPlan (spt : StructParserTree)
  | selectorPlan (selectorType : String) (arms : List UnionArm)
      (defaultErrorArm : Bool)
  | fieldlessPlan (repr : String) (variants : List (String × Int))
deriving DecidableEq, Repr

/-- Rust's enumerator numbering, applied by the compiler to the
`#name::#id as #ty` casts that `impl_nom_fieldless_enums` emits: an
explicit discriminant is taken as declared, otherwise the value is the
previous variant's value plus one, starting from `next` (0 at the first
variant). -/
def assign_discriminants (next : Int) : List (Option Int) → List Int
  | [] => []
  | some v :: rest => v :: assign_discriminants (v + 1) rest
  | none :: rest => next :: assign_discriminants (next + 1) rest

/-- The repr names accepted by the `match repr.as_ref()` of
`impl_nom_fieldless_enums`; any other repr panics. -/
def allowed_reprs : List String :=
  ["u8", "u16", "u32", "u64", "i8", "i16", "i32", "i64"]

/-- The variant table of a fieldless plan: each variant's name paired
with its Rust enumerator value. -/
def fieldless_variants (vs : List Variant) : List (String × Int) :=
  (vs.map Variant.ident).zip (assign_discriminants 0 (vs.map Variant.discriminant))

/-- `impl_nom_fieldless_enums` from `enums.rs`: check the repr is a known
integer type (otherwise panic "Cannot parse 'repr' content"), collect the
variant names (panicking unless the input is an enum), and emit the
`map_opt!(be_<repr>, |selector| …)` parser whose arms compare the decoded
selector with each `Name::Variant as repr` in declaration order. -/
def impl_nom_fieldless_enums (ast : DeriveInput) (repr : String) :
    Except ConfigError Plan :=
  if repr ∈ allowed_reprs then
    match ast.data with
    | .dataEnum vs => .ok (.fieldlessPlan repr (fieldless_variants vs))
    | _ => .error (.panicked "expect enum")
  else .error (.panicked "Cannot parse repr content")

/-- Exchange the elements at positions `i` and `j` (`Vec::swap`); the
source only calls it with valid indices. -/
def list_swap {α : Type} (l : List α) (i j : Nat) : List α :=
  match l[i]?, l[j]? with
  | some a, some b => (l.set i b).set j a
  | _, _ => l

/-- The wildcard relocation of `impl_nom_enums`: if some variant's
selector is `_`, find the position of the first such variant and, unless
it is already last, swap it with the last variant.  (The source swaps
`variants_defs` and `variants_code` in lockstep; since each arm is a pure
function of its def, swapping the defs and rebuilding the arms is the
same.) -/
def reorder_default_case (defs : List VariantParserTree) :
    List VariantParserTree :=
  if defs.any (fun d => d.selector = "_") then
    let pos := defs.findIdx (fun d => d.selector = "_")
    let last := defs.length - 1
    if pos ≠ last then list_swap defs pos last else defs
  else defs

/-- The dispatch arm emitted for one parsed variant: match on its
selector pattern and run its `do_parse!` body. -/
def build_variant_arm (d : VariantParserTree) : UnionArm :=
  ⟨d.selector, d.ident, d.struct_def⟩

/-- `impl_nom_enums` from `enums.rs`.  With a type-level `Selector`
attribute the enum is in selector mode: parse every variant, relocate the
wildcard arm to the end, and append the default
`_ => Err(ErrorKind::Switch)` arm iff no variant is the wildcard.
Without one, a fieldless enum is handled by `impl_nom_fieldless_enums`
(panicking `missingRepresentation` if it has no repr attribute), and any
other enum panics `missingUnionSelector`. -/
def impl_nom_enums (ast : DeriveInput) : Except ConfigError Plan :=
  match get_selector ast.attrs with
  | .error e => .error e
  | .ok none =>
      if is_input_fieldless_enum ast then
        match get_repr ast.attrs with
        | .error e => .error e
        | .ok (some repr) => impl_nom_fieldless_enums ast repr
        | .ok none => .error .missingRepresentation
      else .error .missingUnionSelector
  | .ok (some selectorType) =>
      match ast.data with
      | .dataEnum vs =>
          match map_variants vs with
          | .error e => .error e
          | .ok defs =>
              let default_case_handled :=
                defs.any (fun d => d.selector = "_")
              .ok (.selectorPlan selectorType
                ((reorder_default_case defs).map build_variant_arm)
                (!default_case_handled))
      | _ => .error (.panicked "expect enum")

/-- `impl_nom` from `lib.rs`: enums are delegated to `impl_nom_enums`,
structs become the `do_parse!` record plan of their fields, and untagged
unions panic "Unions not supported". -/
def impl_nom (ast : DeriveInput) : Except ConfigError Plan :=
  match ast.data with
  | .dataEnum _ => impl_nom_enums ast
  | .dataStruct fields => .ok (.recordPlan (parse_struct fields))
  | .dataUnion => .error (.panicked "Unions not supported")

/-- Byte width of a repr accepted by `impl_nom_fieldless_enums` (the
`be_u8` … `be_i64` nom parsers each consume this many bytes). -/
def reprBytes : String → Nat
  | "u8" => 1
  | "i8" => 1
  | "u16" => 2
  | "i16" => 2
  | "u32" => 4
  | "i32" => 4
  | _ => 8

/-- Big-endian decode of `width` bytes from the front of the input, as the
`be_*` nom parsers do: the value and the remaining input, or failure when
fewer than `width` bytes remain.  Bytes are naturals below 256. -/
def be_decode (width : Nat) (input : List Nat) : Option (Nat × List Nat) :=
  if width ≤ input.length then
    some ((input.take width).foldl (fun acc b => acc * 256 + b) 0,
      input.drop width)
  else none

/-- The bit pattern of the `#name::#id as #ty` cast emitted for one
variant: the enumerator value reduced to the repr's width.  The emitted
`selector == Name::Variant as ty` comparison holds exactly when the
decoded bytes equal this pattern — for signed reprs both sides are the
two's-complement reading of the same bits, so comparing bit patterns is
comparing values. -/
def cast_to_repr (repr : String) (d : Int) : Nat :=
  (d.emod (2 ^ (8 * reprBytes repr))).toNat

/-- The closure body emitted by `impl_nom_fieldless_enums`: one
`if selector == #name::#id as #ty { return Some(#name::#id); }` per
variant, in declaration order, then `None`. -/
def run_variant_checks (repr : String) (selector : Nat) :
    List (String × Int) → Option String
  | [] => none
  | (n, d) :: rest =>
      if cast_to_repr repr d = selector then some n
      else run_variant_checks repr selector rest

/-- The `parse` function emitted for a fieldless enum:
`map_opt!(i, be_<repr>, |selector| …)` — decode the discriminant big
endian, run the variant checks, fail if the primitive decode fails or the
closure returns `None`. -/
def fieldless_parse (repr : String) (variants : List (String × Int))
    (input : List Nat) : Option (String × List Nat) :=
  match be_decode (reprBytes repr) input with
  | none => none
  | some (v, rest) =>
      match run_variant_checks repr v variants with
      | none => none
      | some n => some (n, rest)

/-- Whether one emitted arm matches a selector value: the wildcard pattern
`_` matches everything, and a concrete pattern matches according to the
host language's evaluation of `selector` against the pattern text,
abstracted as the `sel_eq` parameter. -/
def arm_matches {σ : Type} (sel_eq : String → σ → Bool) (sel : σ)
    (a : UnionArm) : Bool :=
  a.pattern = "_" || sel_eq a.pattern sel

/-- The `match selector { … }` dispatch emitted for a selector enum: the
first arm (in emitted order) whose pattern matches is taken, and when none
matches the appended default arm — present iff `defaultErrorArm` — yields
the `ErrorKind::Switch` failure.  `none` models a non-exhaustive match,
which the synthesizer never emits: when `defaultErrorArm` is false a
wildcard arm is present. -/
def plan_dispatch {σ : Type} (sel_eq : String → σ → Bool) (sel : σ)
    (arms : List UnionArm) (defaultErrorArm : Bool) :
    Option (Except DecodeError StructParserTree) :=
  match arms.find? (arm_matches sel_eq sel) with
  | some a => some (.ok a.body)
  | none =>
      if defaultErrorArm then some (.error .unmatchedSelector) else none

/-! ### Helper lemmas -/

instance {ε α : Type} [DecidableEq ε] [DecidableEq α] :
    DecidableEq (Except ε α) := fun x y =>
  match x, y with
  | .ok a, .ok b =>
      if h : a = b then .isTrue (by rw [h]) else .isFalse (by simp [h])
  | .error a, .error b =>
      if h : a = b then .isTrue (by rw [h]) else .isFalse (by simp [h])
  | .ok _, .error _ => .isFalse (fun hc => Except.noConfusion hc)
  | .error _, .ok _ => .isFalse (fun hc => Except.noConfusion hc)

theorem fieldless_fold (vs : List Variant) (acc : Bool) :
    vs.foldl (fun acc v => if v.fields.isUnit then acc else false) acc
      = (acc && vs.all (fun v => v.fields.isUnit)) := by
  induction vs generalizing acc with
  | nil => simp
  | cons v rest ih =>
      simp only [List.foldl_cons, List.all_cons]
      rw [ih]
      cases hv : v.fields.isUnit <;> simp [hv]

theorem is_input_fieldless_enum_of_unit (name : String) (attrs : List Meta)
    {vs : List Variant} (h : ∀ v ∈ vs, v.fields = .unit) :
    is_input_fieldless_enum ⟨name, attrs, .dataEnum vs⟩ = true := by
  simp only [is_input_fieldless_enum]
  rw [fieldless_fold]
  simp only [Bool.true_and, List.all_eq_true]
  intro v hv
  rw [h v hv]
  rfl

theorem parse_variant_ok {v : Variant} {d : VariantParserTree}
    (h : parse_variant v = .ok d) :
    get_selector v.attrs = .ok (some d.selector) ∧ d.ident = v.ident := by
  unfold parse_variant at h
  cases hs : get_selector v.attrs with
  | error e => rw [hs] at h; exact absurd h (by simp)
  | ok o =>
      cases o with
      | none => rw [hs] at h; exact absurd h (by simp)
      | some s =>
          rw [hs] at h
          simp only [Except.ok.injEq] at h
          subst h
          exact ⟨rfl, rfl⟩

theorem map_variants_any_wild {vs : List Variant}
    {defs : List VariantParserTree} (h : map_variants vs = .ok defs) :
    defs.any (fun d => d.selector = "_")
      = vs.any (fun v => decide (get_selector v.attrs = .ok (some "_"))) := by
  induction vs generalizing defs with
  | nil =>
      unfold map_variants at h
      simp only [Except.ok.injEq] at h
      subst h
      rfl
  | cons v rest ih =>
      unfold map_variants at h
      cases hp : parse_variant v with
      | error e => rw [hp] at h; exact absurd h (by simp)
      | ok d =>
          rw [hp] at h
          cases hm : map_variants rest with
          | error e => rw [hm] at h; exact absurd h (by simp)
          | ok ds =>
              rw [hm] at h
              simp only [Except.ok.injEq] at h
              subst h
              simp only [List.any_cons]
              rw [ih hm]
              obtain ⟨hsel, _⟩ := parse_variant_ok hp
              rw [hsel]
              simp

theorem list_swap_length {α : Type} (l : List α) (i j : Nat) :
    (list_swap l i j).length = l.length := by
  unfold list_swap
  cases hi : l[i]? <;> cases hj : l[j]? <;> simp

theorem reorder_last_wild {defs : List VariantParserTree}
    (h : defs.any (fun d => d.selector = "_") = true) :
    ∃ d, (reorder_default_case defs)[(reorder_default_case defs).length - 1]?
        = some d ∧ d.selector = "_" := by
  have hex : ∃ x ∈ defs, decide (x.selector = "_") = true := by
    simpa using h
  have hlt : defs.findIdx (fun d => decide (d.selector = "_")) < defs.length :=
    List.findIdx_lt_length_of_exists hex
  have hpos : defs.length - 1 < defs.length := by
    obtain ⟨x, hx, _⟩ := hex
    have : 0 < defs.length := List.length_pos.mpr (List.ne_nil_of_mem hx)
    omega
  unfold reorder_default_case
  rw [h]
  simp only [if_true]
  by_cases hpl : defs.findIdx (fun d => decide (d.selector = "_"))
      = defs.length - 1
  · rw [if_neg (by simpa using hpl)]
    refine ⟨defs[defs.length - 1], ?_, ?_⟩
    · exact List.getElem?_eq_getElem hpos
    · have hw := List.findIdx_of_getElem?_eq_some (List.getElem?_eq_getElem hlt)
      have hge : defs[defs.length - 1]
          = defs[defs.findIdx (fun d => decide (d.selector = "_"))] := by
        have h2 : defs[defs.length - 1]?
            = defs[defs.findIdx (fun d => decide (d.selector = "_"))]? := by
          rw [hpl]
        rw [List.getElem?_eq_getElem hpos, List.getElem?_eq_getElem hlt] at h2
        exact Option.some.inj h2
      rw [hge]
      simpa using hw
  · rw [if_pos (by simpa using hpl)]
    unfold list_swap
    rw [List.getElem?_eq_getElem hlt, List.getElem?_eq_getElem hpos]
    have hlen : ((defs.set (defs.findIdx fun d => decide (d.selector = "_"))
        defs[defs.length - 1]).set (defs.length - 1)
        defs[defs.findIdx fun d => decide (d.selector = "_")]).length
        = defs.length := by simp
    refine ⟨defs[defs.findIdx fun d => decide (d.selector = "_")], ?_, ?_⟩
    · rw [hlen]
      exact List.getElem?_set_self (by simpa using hpos)
    · have := List.findIdx_of_getElem?_eq_some (List.getElem?_eq_getElem hlt)
      simpa using this

theorem map_variants_missing {vs : List Variant}
    (hwf : ∀ v ∈ vs, ∃ o, get_selector v.attrs = .ok o)
    (hmiss : ∃ v ∈ vs, get_selector v.attrs = .ok none) :
    ∃ n, map_variants vs = .error (.missingSelector n) := by
  induction vs with
  | nil => simp at hmiss
  | cons v rest ih =>
      obtain ⟨o, ho⟩ := hwf v (List.mem_cons_self v rest)
      cases o with
      | none =>
          refine ⟨v.ident, ?_⟩
          unfold map_variants parse_variant
          rw [ho]
      | some s =>
          have hrest : ∃ u ∈ rest, get_selector u.attrs = .ok none := by
            obtain ⟨w, hw, hwn⟩ := hmiss
            rcases List.mem_cons.mp hw with hwv | hwr
            · subst hwv; rw [ho] at hwn; exact absurd hwn (by simp)
            · exact ⟨w, hwr, hwn⟩
          obtain ⟨n, hn⟩ :=
            ih (fun u hu => hwf u (List.mem_cons_of_mem v hu)) hrest
          refine ⟨n, ?_⟩
          unfold map_variants parse_variant
          rw [ho, hn]

theorem run_variant_checks_eq_find (repr : String) (sel : Nat)
    (l : List (String × Int)) :
    run_variant_checks repr sel l
      = (l.find? (fun p => decide (cast_to_repr repr p.2 = sel))).map
          Prod.fst := by
  induction l with
  | nil => rfl
  | cons p rest ih =>
      obtain ⟨n, d⟩ := p
      unfold run_variant_checks
      rw [List.find?_cons]
      by_cases hc : cast_to_repr repr d = sel
      · rw [if_pos hc, decide_eq_true hc]
        rfl
      · rw [if_neg hc, decide_eq_false hc]
        exact ih

theorem impl_nom_fieldless_no_selector (ast : DeriveInput) (repr : String)
    (ty : String) (arms : List UnionArm) (dflt : Bool) :
    impl_nom_fieldless_enums ast repr ≠ .ok (.selectorPlan ty arms dflt) := by
  unfold impl_nom_fieldless_enums
  split
  · split <;> simp
  · simp

theorem impl_nom_enums_selector_inv {ast : DeriveInput} {vs : List Variant}
    {ty : String} {arms : List UnionArm} {dflt : Bool}
    (hdata : ast.data = .dataEnum vs)
    (h : impl_nom_enums ast = .ok (.selectorPlan ty arms dflt)) :
    ∃ defs, map_variants vs = .ok defs ∧
      arms = (reorder_default_case defs).map build_variant_arm ∧
      dflt = !(defs.any (fun d => d.selector = "_")) := by
  unfold impl_nom_enums at h
  split at h
  · exact absurd h (by simp)
  · exfalso
    split at h
    · split at h
      · simp at h
      · exact impl_nom_fieldless_no_selector _ _ _ _ _ h
      · simp at h
    · simp at h
  · rename_i st
    split at h
    · rename_i vs2 heq
      rw [hdata] at heq
      injection heq with h2
      subst h2
      split at h
      · simp at h
      · rename_i defs heq2
        simp only [Except.ok.injEq, Plan.selectorPlan.injEq] at h
        obtain ⟨hty, harms, hdflt⟩ := h
        exact ⟨defs, heq2, harms.symm, hdflt.symm⟩
    · exact absurd h (by simp)

/-! ### Concrete inputs used by the claim theorems -/

/-- The attribute `#[Selector = "s"]`. -/
def selAttr (s : String) : Meta := .nameValue "Selector" (.str s)

/-- The attribute `#[repr(r)]`. -/
def reprAttr (r : String) : Meta := .metaList "repr" [.metaWord r]

/-- An unnamed `u32` field carrying no attributes. -/
def u32Field : Field := Field.mk "" [] (.primitive 4 false)

/-- The tuple variant `n(u32)` carrying `#[Selector = "s"]`. -/
def selVariant (n s : String) : Variant :=
  Variant.mk n [selAttr s] (.unnamed [u32Field]) none

/-- The field plan of a one-field tuple variant `(u32)`. -/
def u32Body : StructParserTree := ⟨[("_0", .raw "be_u32")], true⟩

/-- A selector enum declaring its wildcard variant first:
variants `V1`, `V2`, `V3` with selectors `_`, `0`, `1`. -/
def c1_wild_first : DeriveInput :=
  ⟨"U", [selAttr "u8"],
    .dataEnum [selVariant "V1" "_", selVariant "V2" "0", selVariant "V3" "1"]⟩

/-- A selector enum declaring its wildcard variant last:
variants `V1`, `V2`, `V3` with selectors `0`, `1`, `_`. -/
def c1_wild_last : DeriveInput :=
  ⟨"U", [selAttr "u8"],
    .dataEnum [selVariant "V1" "0", selVariant "V2" "1", selVariant "V3" "_"]⟩

/-- The arms synthesized for `c1_wild_first`: the swap with the last arm
produces the order `1`, `0`, `_`. -/
def c1_arms_wild_first : List UnionArm :=
  [⟨"1", "V3", u32Body⟩, ⟨"0", "V2", u32Body⟩, ⟨"_", "V1", u32Body⟩]

/-- The arms synthesized for `c1_wild_last`: the wildcard is already last,
so the declaration order is kept. -/
def c1_arms_wild_last : List UnionArm :=
  [⟨"0", "V1", u32Body⟩, ⟨"1", "V2", u32Body⟩, ⟨"_", "V3", u32Body⟩]

/-! ### Claim theorems -/

/-- Claim C1, counterexample.  The claim states that for declaration order
`_`, `0`, `1` the synthesized arm order is `0`, `1`, `_`.  On the code the
wildcard is *swapped* with the last arm, so the synthesized order on that
input is `1`, `0`, `_`, which differs from the claimed order. -/
theorem c1_counterexample :
    impl_nom_enums c1_wild_first
        = .ok (.selectorPlan "u8" c1_arms_wild_first false) ∧
    c1_arms_wild_first.map UnionArm.pattern = ["1", "0", "_"] ∧
    ["1", "0", "_"] ≠ ["0", "1", "_"] :=
  ⟨rfl, rfl, by decide⟩

/-- Claim C1, amended.  For a selector-mode union whose variants declare
the selectors `_`, `0`, `1` in that order, the synthesized arm order is
`1`, `0`, `_` (the wildcard is swapped with the last arm, which does not
preserve the relative order of the remaining arms); for declaration order
`0`, `1`, `_` the synthesized order is `0`, `1`, `_` (a no-op reorder). -/
theorem c1_amended_arm_order :
    (impl_nom_enums c1_wild_first
        = .ok (.selectorPlan "u8" c1_arms_wild_first false) ∧
      c1_arms_wild_first.map UnionArm.pattern = ["1", "0", "_"]) ∧
    (impl_nom_enums c1_wild_last
        = .ok (.selectorPlan "u8" c1_arms_wild_last false) ∧
      c1_arms_wild_last.map UnionArm.pattern = ["0", "1", "_"]) :=
  ⟨⟨rfl, rfl⟩, ⟨rfl, rfl⟩⟩

/-- A unit variant that nonetheless carries a `Selector` directive. -/
def unitVariantWithSelector : Variant := ⟨"A", [selAttr "0"], .unit, none⟩

/-- An enum with a `repr(u8)` attribute, no type-level `Selector`
attribute, and a single unit variant that carries `#[Selector = "0"]`. -/
def c5_input : DeriveInput :=
  ⟨"E", [reprAttr "u8"], .dataEnum [unitVariantWithSelector]⟩

/-- Claim C5, counterexample.  The claim states fieldless mode is entered
only when no *variant* carries an explicit `Selector` directive.  On the
code the mode choice looks at the enum-level attributes only: `c5_input`'s
variant carries `#[Selector = "0"]`, yet the build enters fieldless mode
and succeeds. -/
theorem c5_counterexample :
    impl_nom_enums c5_input = .ok (.fieldlessPlan "u8" [("A", 0)]) ∧
    get_selector unitVariantWithSelector.attrs = .ok (some "0") :=
  ⟨rfl, rfl⟩

/-- Converse of `is_input_fieldless_enum_of_unit`: when the fieldless
check of `enums.rs` succeeds on an enum, every variant is a unit
variant. -/
theorem unit_of_is_input_fieldless {name : String} {attrs : List Meta}
    {vs : List Variant}
    (h : is_input_fieldless_enum ⟨name, attrs, .dataEnum vs⟩ = true) :
    ∀ v ∈ vs, v.fields = .unit := by
  simp only [is_input_fieldless_enum] at h
  rw [fieldless_fold] at h
  simp only [Bool.true_and, List.all_eq_true] at h
  intro v hv
  have h2 := h v hv
  cases hf : v.fields with
  | named fs => rw [hf] at h2; exact absurd h2 (by simp [Fields.isUnit])
  | unnamed fs => rw [hf] at h2; exact absurd h2 (by simp [Fields.isUnit])
  | unit => rfl

/-- Claim C5, amended.  Fieldless mode is entered exactly when the enum's
own attribute list resolves to no `Selector` directive and every variant
is a unit variant — variant-level `Selector` directives play no part in
the mode choice.  First two conjuncts, sufficiency: under those
conditions the build is the fieldless build of the declared repr, and a
missing representation width is the missing-representation error.  Third
conjunct, necessity (the original claim's "only when"): whenever the
build produces a fieldless plan, the enum-level attributes resolved to no
selector, every variant was a unit variant, the plan's repr is the
declared representation width, and the arm table is the enumerator
table. -/
theorem c5_amended_mode_entry (name : String) (attrs : List Meta)
    (vs : List Variant) :
    ((get_selector attrs = .ok none ∧ (∀ v ∈ vs, v.fields = .unit) ∧
        get_repr attrs = .ok none) →
      impl_nom_enums ⟨name, attrs, .dataEnum vs⟩
        = .error .missingRepresentation) ∧
    (∀ r, (get_selector attrs = .ok none ∧ (∀ v ∈ vs, v.fields = .unit) ∧
        get_repr attrs = .ok (some r)) →
      impl_nom_enums ⟨name, attrs, .dataEnum vs⟩
        = impl_nom_fieldless_enums ⟨name, attrs, .dataEnum vs⟩ r) ∧
    (∀ r table, impl_nom_enums ⟨name, attrs, .dataEnum vs⟩
        = .ok (.fieldlessPlan r table) →
      get_selector attrs = .ok none ∧ (∀ v ∈ vs, v.fields = .unit) ∧
        get_repr attrs = .ok (some r) ∧ table = fieldless_variants vs) := by
  refine ⟨?_, ?_, ?_⟩
  · rintro ⟨hsel, hunit, hrepr⟩
    have hfl := is_input_fieldless_enum_of_unit name attrs hunit
    simp [impl_nom_enums, hsel, hfl, hrepr]
  · rintro r ⟨hsel, hunit, hrepr⟩
    have hfl := is_input_fieldless_enum_of_unit name attrs hunit
    simp [impl_nom_enums, hsel, hfl, hrepr]
  · intro r table h
    cases hsel : get_selector attrs with
    | error e => simp [impl_nom_enums, hsel] at h
    | ok o =>
        cases o with
        | some st =>
            cases hm : map_variants vs with
            | error e => simp [impl_nom_enums, hsel, hm] at h
            | ok defs => simp [impl_nom_enums, hsel, hm] at h
        | none =>
            by_cases hfl :
                is_input_fieldless_enum ⟨name, attrs, .dataEnum vs⟩ = true
            · cases hrepr : get_repr attrs with
              | error e => simp [impl_nom_enums, hsel, hfl, hrepr] at h
              | ok orr =>
                  cases orr with
                  | none => simp [impl_nom_enums, hsel, hfl, hrepr] at h
                  | some repr2 =>
                      simp only [impl_nom_enums, hsel, hfl, hrepr] at h
                      by_cases ha : repr2 ∈ allowed_reprs
                      · simp only [impl_nom_fieldless_enums, ha,
                          if_true] at h
                        simp only [Except.ok.injEq,
                          Plan.fieldlessPlan.injEq] at h
                        obtain ⟨hr, ht⟩ := h
                        subst hr
                        exact ⟨rfl, unit_of_is_input_fieldless hfl,
                          rfl, ht.symm⟩
                      · simp [impl_nom_fieldless_enums, ha] at h
            · simp [impl_nom_enums, hsel, hfl] at h

/-- Witness for `c5_amended_mode_entry` at concrete inputs: the enum of
`c5_input` without its repr attribute fails with the
missing-representation error, and the necessity direction applied to
`c5_input`'s successful fieldless build recovers its mode conditions. -/
theorem c5_amended_mode_entry_witness :
    (impl_nom_enums ⟨"E", [], .dataEnum [unitVariantWithSelector]⟩
      = .error .missingRepresentation) ∧
    (get_selector c5_input.attrs = .ok none ∧
      (∀ v ∈ [unitVariantWithSelector], v.fields = .unit) ∧
      get_repr c5_input.attrs = .ok (some "u8") ∧
      [("A", (0 : Int))] = fieldless_variants [unitVariantWithSelector]) :=
  ⟨(c5_amended_mode_entry "E" [] [unitVariantWithSelector]).1
      ⟨rfl, by decide, rfl⟩,
    (c5_amended_mode_entry "E" [reprAttr "u8"]
        [unitVariantWithSelector]).2.2 "u8" [("A", 0)] rfl⟩

/-- Claim C7, counterexample.  The claim states that a directive list in
which the same directive kind appears twice is rejected with a
duplicate-directive configuration error.  On the code `get_selector`
succeeds on a list carrying two `Selector` directives, returning the
first value and never reporting an error. -/
theorem c7_counterexample :
    get_selector [selAttr "0", selAttr "1"] = .ok (some "0") := rfl

/-- If a prefix of an attribute list resolves to no selector, resolution
continues past it unchanged. -/
theorem get_selector_append {pre : List Meta} (l : List Meta)
    (hpre : get_selector pre = .ok none) :
    get_selector (pre ++ l) = get_selector l := by
  induction pre with
  | nil => rfl
  | cons m rest ih =>
      rw [List.cons_append]
      cases m with
      | word i =>
          simp only [get_selector] at hpre ⊢
          exact ih hpre
      | nameValue i l2 =>
          simp only [get_selector] at hpre ⊢
          by_cases hi : i = "Selector"
          · rw [if_pos hi] at hpre ⊢
            cases l2 with
            | str s2 => simp at hpre
            | intLit n => simp at hpre
            | other => simp at hpre
          · rw [if_neg hi] at hpre ⊢
            exact ih hpre
      | metaList i nested =>
          simp only [get_selector] at hpre ⊢
          by_cases hi : i = "Selector"
          · rw [if_pos hi] at hpre ⊢
            cases nested with
            | nil => exact ih hpre
            | cons nm tail =>
                cases nm with
                | lit l2 => cases l2 <;> simp at hpre
                | metaWord w => simp at hpre
                | metaOther => simp at hpre
          · rw [if_neg hi] at hpre ⊢
            exact ih hpre

/-- Claim C7, amended.  The resolver scans the directive list in order
and returns the payload of the first `Selector` directive it reaches;
later directives of the same kind — duplicates included — are never
examined and never cause an error. -/
theorem c7_amended_first_wins (pre : List Meta) (s : String)
    (rest : List Meta) (hpre : get_selector pre = .ok none) :
    get_selector (pre ++ .nameValue "Selector" (.str s) :: rest)
      = .ok (some s) := by
  rw [get_selector_append _ hpre]
  rfl

/-- Witness for `c7_amended_first_wins` at a concrete attribute list with
two `Selector` directives. -/
theorem c7_amended_first_wins_witness :
    get_selector [Meta.word "derive", selAttr "7", selAttr "9"]
      = .ok (some "7") :=
  c7_amended_first_wins [Meta.word "derive"] "7" [selAttr "9"] rfl

/-- Claim C10: synthesis on an untagged union input always fails with the
"Unions not supported" panic and never produces a plan. -/
theorem c10_union_rejected (ast : DeriveInput) (h : ast.data = .dataUnion) :
    impl_nom ast = .error (.panicked "Unions not supported") := by
  unfold impl_nom
  rw [h]

/-- Witness for `c10_union_rejected` at a concrete union input. -/
theorem c10_union_rejected_witness :
    impl_nom ⟨"U", [], .dataUnion⟩
      = .error (.panicked "Unions not supported") :=
  c10_union_rejected ⟨"U", [], .dataUnion⟩ rfl

/-- Claim C2: for a selector-mode union in which exactly one variant uses
the wildcard selector `_`, the synthesized plan places the wildcard arm
in the final arm position regardless of where it was declared. -/
theorem c2_wildcard_last (ast : DeriveInput) (vs : List Variant)
    (ty : String) (arms : List UnionArm) (dflt : Bool)
    (hdata : ast.data = .dataEnum vs)
    (hok : impl_nom_enums ast = .ok (.selectorPlan ty arms dflt))
    (hone : vs.countP
        (fun v => decide (get_selector v.attrs = .ok (some "_"))) = 1) :
    ∃ a, arms[arms.length - 1]? = some a ∧ a.pattern = "_" := by
  obtain ⟨defs, hm, harms, _⟩ := impl_nom_enums_selector_inv hdata hok
  subst harms
  have hany : defs.any (fun d => d.selector = "_") = true := by
    rw [map_variants_any_wild hm, List.any_eq_true]
    have hpos : 0 < vs.countP
        (fun v => decide (get_selector v.attrs = .ok (some "_"))) := by
      omega
    simpa using List.countP_pos_iff.mp hpos
  obtain ⟨d, hd, hdw⟩ := reorder_last_wild hany
  refine ⟨build_variant_arm d, ?_, hdw⟩
  simp only [List.length_map, List.getElem?_map, hd, Option.map_some']

/-- A selector enum declaring the wildcard variant first: variants `W`,
`V` with selectors `_`, `0`. -/
def c2_input : DeriveInput :=
  ⟨"U", [selAttr "u8"], .dataEnum [selVariant "W" "_", selVariant "V" "0"]⟩

/-- The arms synthesized for `c2_input`. -/
def c2_arms : List UnionArm := [⟨"0", "V", u32Body⟩, ⟨"_", "W", u32Body⟩]

/-- Witness for `c2_wildcard_last` at `c2_input`: the wildcard arm,
declared first, ends up last. -/
theorem c2_wildcard_last_witness :
    ∃ a, c2_arms[c2_arms.length - 1]? = some a ∧ a.pattern = "_" :=
  c2_wildcard_last c2_input [selVariant "W" "_", selVariant "V" "0"] "u8"
    c2_arms false rfl rfl (by decide)

/-- Claim C3: for a record schema with fields and no directives, the plan
is a record plan whose steps appear in exactly the declaration order of
the fields.  (`parse_fields` is modelled from the spec, `structs.rs` not
being among the sources; the emission of the steps in `s.parsers` order
is `impl_nom` of `lib.rs`.) -/
theorem c3_record_field_order (name : String) (fs : List Field)
    (_hnodir : ∀ f ∈ fs, f.attrs = []) :
    ∃ spt, impl_nom ⟨name, [], .dataStruct (.named fs)⟩
        = .ok (.recordPlan spt) ∧
      spt.parsers.map Prod.fst = fs.map Field.ident ∧
      spt.unnamed = false := by
  refine ⟨parse_struct (.named fs), rfl, ?_, rfl⟩
  simp [parse_struct, parse_fields, List.map_map, Function.comp]

/-- Two named `u32`/`u16` fields without directives. -/
def c3_fields : List Field :=
  [⟨"a", [], .primitive 4 false⟩, ⟨"b", [], .primitive 2 false⟩]

/-- Witness for `c3_record_field_order` at a two-field record. -/
theorem c3_record_field_order_witness :
    ∃ spt, impl_nom ⟨"S", [], .dataStruct (.named c3_fields)⟩
        = .ok (.recordPlan spt) ∧
      spt.parsers.map Prod.fst = c3_fields.map Field.ident ∧
      spt.unnamed = false :=
  c3_record_field_order "S" c3_fields (by decide)

/-- Claim C6: for a selector-mode union with no wildcard variant, the
synthesized plan carries the appended terminal no-match arm, and
dispatching on a selector value matched by no declared arm yields the
structured unmatched-selector decode failure. -/
theorem c6_no_wildcard_default_arm (ast : DeriveInput) (vs : List Variant)
    (ty : String) (arms : List UnionArm) (dflt : Bool)
    (hdata : ast.data = .dataEnum vs)
    (hok : impl_nom_enums ast = .ok (.selectorPlan ty arms dflt))
    (hnw : ∀ v ∈ vs, ¬ get_selector v.attrs = .ok (some "_")) :
    dflt = true ∧
    ∀ (σ : Type) (sel_eq : String → σ → Bool) (sel : σ),
      (∀ a ∈ arms, sel_eq a.pattern sel = false) →
      plan_dispatch sel_eq sel arms dflt
        = some (.error .unmatchedSelector) := by
  obtain ⟨defs, hm, harms, hdflt⟩ := impl_nom_enums_selector_inv hdata hok
  subst harms
  have hany : defs.any (fun d => d.selector = "_") = false := by
    rw [map_variants_any_wild hm]
    rw [List.any_eq_false]
    intro v hv
    simpa using hnw v hv
  have hdt : dflt = true := by rw [hdflt, hany]; rfl
  have hre : reorder_default_case defs = defs := by
    unfold reorder_default_case
    rw [hany]
    simp
  refine ⟨hdt, ?_⟩
  intro σ sel_eq sel hno
  have hnowild : ∀ d ∈ defs, ¬ d.selector = "_" := by
    intro d hd
    have := List.any_eq_false.mp hany d hd
    simpa using this
  unfold plan_dispatch
  have hfind : ((reorder_default_case defs).map build_variant_arm).find?
      (arm_matches sel_eq sel) = none := by
    rw [List.find?_eq_none]
    intro a ha
    rw [hre] at ha
    obtain ⟨d, hd, hbd⟩ := List.mem_map.mp ha
    subst hbd
    have hp : (build_variant_arm d).pattern = d.selector := rfl
    have hs2 : sel_eq d.selector sel = false :=
      hno (build_variant_arm d) (by rw [hre]; exact List.mem_map_of_mem _ hd)
    simp [arm_matches, hp, hnowild d hd, hs2]
  rw [hfind, hdt]
  rfl

/-- A selector enum with two concrete selectors `0`, `1` and no
wildcard. -/
def c6_input : DeriveInput :=
  ⟨"U", [selAttr "u8"], .dataEnum [selVariant "V1" "0", selVariant "V2" "1"]⟩

/-- The arms synthesized for `c6_input`. -/
def c6_arms : List UnionArm := [⟨"0", "V1", u32Body⟩, ⟨"1", "V2", u32Body⟩]

/-- Witness for `c6_no_wildcard_default_arm` at `c6_input`, dispatching a
selector value matched by no arm. -/
theorem c6_no_wildcard_default_arm_witness :
    plan_dispatch (fun _ _ => false) (5 : Nat) c6_arms true
      = some (.error .unmatchedSelector) :=
  (c6_no_wildcard_default_arm c6_input
      [selVariant "V1" "0", selVariant "V2" "1"] "u8" c6_arms true rfl rfl
      (by decide)).2
    Nat (fun _ _ => false) 5 (by decide)

/-- Claim C8: a selector-mode union (type-level `Selector` present) whose
variants all resolve without panicking fails with the missing-selector
configuration error as soon as some variant lacks a `Selector`
directive. -/
theorem c8_missing_selector (name : String) (attrs : List Meta)
    (st : String) (vs : List Variant)
    (hsel : get_selector attrs = .ok (some st))
    (hwf : ∀ v ∈ vs, ∃ o, get_selector v.attrs = .ok o)
    (hmiss : ∃ v ∈ vs, get_selector v.attrs = .ok none) :
    ∃ n, impl_nom_enums ⟨name, attrs, .dataEnum vs⟩
        = .error (.missingSelector n) := by
  obtain ⟨n, hn⟩ := map_variants_missing hwf hmiss
  refine ⟨n, ?_⟩
  simp [impl_nom_enums, hsel, hn]

/-- A tuple variant carrying no attributes at all. -/
def c8_variant_no_selector : Variant := ⟨"V1", [], .unnamed [u32Field], none⟩

/-- Witness for `c8_missing_selector` at a selector enum whose only
variant lacks a `Selector` directive. -/
theorem c8_missing_selector_witness :
    ∃ n, impl_nom_enums
        ⟨"U", [selAttr "u8"], .dataEnum [c8_variant_no_selector]⟩
      = .error (.missingSelector n) :=
  c8_missing_selector "U" [selAttr "u8"] "u8" [c8_variant_no_selector] rfl
    (by
      intro v hv
      simp only [List.mem_singleton] at hv
      subst hv
      exact ⟨none, rfl⟩)
    ⟨c8_variant_no_selector, by simp, rfl⟩

/-- Evaluation of `fieldless_parse` once the primitive decode of the
discriminant is known to succeed. -/
theorem fieldless_parse_decode {repr : String}
    {variants : List (String × Int)} {input : List Nat} {v : Nat}
    {rest : List Nat}
    (hdec : be_decode (reprBytes repr) input = some (v, rest)) :
    fieldless_parse repr variants input
      = match run_variant_checks repr v variants with
        | none => none
        | some n => some (n, rest) := by
  unfold fieldless_parse
  rw [hdec]

/-- Claim C4: for a fieldless-mode union (no type-level `Selector`, all
variants unit, a known repr), the synthesized plan pairs each variant
with its enumerator value (explicit or default-incrementing); its decode
reads `reprBytes repr` bytes big endian, fails on short input, returns a
variant whose discriminant pattern equals the decoded value when one
exists, and fails — with no fallback — when none does. -/
theorem c4_fieldless_semantics (name : String) (attrs : List Meta)
    (vs : List Variant) (repr : String)
    (hsel : get_selector attrs = .ok none)
    (hrepr : get_repr attrs = .ok (some repr))
    (hallowed : repr ∈ allowed_reprs)
    (hunit : ∀ v ∈ vs, v.fields = .unit) :
    impl_nom_enums ⟨name, attrs, .dataEnum vs⟩
        = .ok (.fieldlessPlan repr (fieldless_variants vs)) ∧
    (∀ input : List Nat, input.length < reprBytes repr →
      fieldless_parse repr (fieldless_variants vs) input = none) ∧
    (∀ (input : List Nat) (v : Nat) (rest : List Nat),
      be_decode (reprBytes repr) input = some (v, rest) →
      ((∃ p ∈ fieldless_variants vs, cast_to_repr repr p.2 = v) →
        ∃ p ∈ fieldless_variants vs, cast_to_repr repr p.2 = v ∧
          fieldless_parse repr (fieldless_variants vs) input
            = some (p.1, rest)) ∧
      ((∀ p ∈ fieldless_variants vs, ¬ cast_to_repr repr p.2 = v) →
        fieldless_parse repr (fieldless_variants vs) input = none)) := by
  have hfl := is_input_fieldless_enum_of_unit name attrs hunit
  refine ⟨?_, ?_, ?_⟩
  · simp [impl_nom_enums, hsel, hfl, hrepr, impl_nom_fieldless_enums,
      hallowed]
  · intro input hlen
    unfold fieldless_parse be_decode
    rw [if_neg (by omega)]
  · intro input v rest hdec
    constructor
    · intro hex
      have hex2 : ∃ p, p ∈ fieldless_variants vs ∧
          (fun p => decide (cast_to_repr repr p.2 = v)) p = true := by
        obtain ⟨p, hp, hpe⟩ := hex
        exact ⟨p, hp, by simpa using hpe⟩
      have hsome : ((fieldless_variants vs).find?
          (fun p => decide (cast_to_repr repr p.2 = v))).isSome :=
        List.find?_isSome.mpr hex2
      obtain ⟨q, hq⟩ := Option.isSome_iff_exists.mp hsome
      refine ⟨q, List.mem_of_find?_eq_some hq,
        by simpa using List.find?_some hq, ?_⟩
      rw [fieldless_parse_decode hdec, run_variant_checks_eq_find, hq]
      rfl
    · intro hnone
      have hfind : (fieldless_variants vs).find?
          (fun p => decide (cast_to_repr repr p.2 = v)) = none := by
        rw [List.find?_eq_none]
        intro p hp
        simpa using hnone p hp
      rw [fieldless_parse_decode hdec, run_variant_checks_eq_find, hfind]
      rfl

/-- The fieldless enum of the spec's example: `A`, `B = 2`, `C` under
`repr(u8)`. -/
def c4_input : DeriveInput :=
  ⟨"U3", [reprAttr "u8"],
    .dataEnum [⟨"A", [], .unit, none⟩, ⟨"B", [], .unit, some 2⟩,
      ⟨"C", [], .unit, none⟩]⟩

/-- Witness for `c4_fieldless_semantics` at `c4_input`: the synthesized
discriminants are `A = 0`, `B = 2`, `C = 3`; byte `0x02` decodes to `B`
and byte `0x01`, matching no variant, fails. -/
theorem c4_fieldless_semantics_witness :
    impl_nom_enums c4_input
        = .ok (.fieldlessPlan "u8" [("A", 0), ("B", 2), ("C", 3)]) ∧
    fieldless_parse "u8" [("A", 0), ("B", 2), ("C", 3)] [2, 9]
        = some ("B", [9]) ∧
    fieldless_parse "u8" [("A", 0), ("B", 2), ("C", 3)] [1] = none :=
  ⟨(c4_fieldless_semantics "U3" [reprAttr "u8"]
      [⟨"A", [], .unit, none⟩, ⟨"B", [], .unit, some 2⟩,
        ⟨"C", [], .unit, none⟩]
      "u8" rfl rfl (by decide) (by decide)).1,
    by decide, by decide⟩

/-- Claim C9: the decoded discriminant of a fieldless plan is compared
against the variants' discriminant patterns in declaration order and the
first match wins (`List.find?`); in particular two variants with equal
discriminant values always resolve to the earlier-declared one. -/
theorem c9_first_match_wins (repr : String)
    (variants : List (String × Int)) (input : List Nat) (v : Nat)
    (rest : List Nat)
    (hdec : be_decode (reprBytes repr) input = some (v, rest)) :
    fieldless_parse repr variants input
      = (variants.find? (fun p => decide (cast_to_repr repr p.2 = v))).map
          (fun p => (p.1, rest)) := by
  rw [fieldless_parse_decode hdec, run_variant_checks_eq_find]
  cases variants.find? (fun p => decide (cast_to_repr repr p.2 = v)) with
  | none => rfl
  | some q => rfl

/-- Witness for `c9_first_match_wins` at a variant table in which two
variants both carry the discriminant 1: decoding byte `0x01` yields the
earlier-declared `A`. -/
theorem c9_first_match_wins_witness :
    fieldless_parse "u8" [("A", (1 : Int)), ("B", 1)] [1]
      = some ("A", []) := by
  rw [c9_first_match_wins "u8" [("A", (1 : Int)), ("B", 1)] [1] 1 []
    (by decide)]
  decide

end NomDerive
